import Mathlib

/-!
# A verified model of the `cortado` tokenizer

Shallow embedding of `src/tokenizer.rs` (the hand-written lexer of the
`cortado` language front-end).  The Rust `Chars` iterator is modelled as a
`List Char`; the mutable `Tokenizer` struct becomes a state record threaded
explicitly through the functions.  The `while` loops of the Rust code are
modelled as fuel-indexed structural recursions; every call site passes
`size t` fuel, which is always sufficient because each loop iteration either
consumes one character from the stream or sets the end-of-input flag.

Unicode character classes: `char::is_whitespace` (the Unicode `White_Space`
property, a fixed finite set of 25 code points) is embedded exactly.
`char::is_alphabetic` and `char::is_numeric` are embedded by their ASCII
fragments (`Char.isAlpha`, `Char.isDigit`); none of the properties proved
below depends on the classification of non-ASCII characters.
-/

namespace Cortado

/-- The token type of `src/tokenizer.rs` (`enum Token`). -/
inductive Token where
  | Ident (s : String)
  | Num (s : String)
  | Str (s : String)
  | Dot
  | Comma
  | LParen
  | RParen
  | LBrace
  | RBrace
  | Assign
  | Colon
  | Semicolon
  | Less
  | And
  | Or
  | Plus
  | Minus
  | Star
  | Slash
  | LessThan
  | Greater
  | GreaterThan
  | Equal
  | NotEqual
  | KwMethod
  | KwGiven
  | KwWhen
  | KwDefault
  | KwTrue
  | KwFalse
  | Error (msg : String)
  | Eof
deriving DecidableEq, Repr

/-- A token together with the position captured at dispatch (`struct TokenAt`). -/
structure TokenAt where
  token : Token
  line : Nat
  col : Nat
deriving DecidableEq, Repr

/-- The lexer state (`struct Tokenizer`): remaining input, one-character
lookahead, end-of-input flag and position counters. -/
structure Tokenizer where
  istream : List Char
  last : Char
  eof : Bool
  line : Nat
  col : Nat
deriving DecidableEq, Repr

/-- `Tokenizer::new`: lookahead initialised to a space (always skipped since
`eof` is false), `line = 1`, `col = 0`. -/
def Tokenizer.new (source : String) : Tokenizer :=
  { istream := source.data, last := ' ', eof := false, line := 1, col := 0 }

/-- Rust `char::is_whitespace`: the Unicode `White_Space` property, embedded
exactly (25 code points). -/
def rustIsWhitespace (c : Char) : Bool :=
  (0x09 ≤ c.val && c.val ≤ 0x0D) || c.val == 0x20 ||
  c.val == 0x85 || c.val == 0xA0 || c.val == 0x1680 ||
  (0x2000 ≤ c.val && c.val ≤ 0x200A) ||
  c.val == 0x2028 || c.val == 0x2029 || c.val == 0x202F ||
  c.val == 0x205F || c.val == 0x3000

/-- Rust `char::is_alphabetic`, restricted to its ASCII fragment. -/
def isAlphabetic (c : Char) : Bool := c.isAlpha

/-- Rust `char::is_numeric`, restricted to its ASCII fragment. -/
def isNumeric (c : Char) : Bool := c.isDigit

/-- `Tokenizer::next`: pull one character into the lookahead slot, updating
`line`/`col` (a newline sets `line + 1, col = 1`, anything else `col + 1`);
on exhausted input set the `eof` flag; a no-op once `eof` is set. -/
def next (t : Tokenizer) : Tokenizer :=
  if t.eof then t
  else
    match t.istream with
    | c :: rest =>
      if c = '\n' then
        { t with istream := rest, last := c, line := t.line + 1, col := 1 }
      else
        { t with istream := rest, last := c, col := t.col + 1 }
    | [] => { t with eof := true }

/-- Loop measure: one `next` step with the guard `¬eof` strictly decreases it. -/
def size (t : Tokenizer) : Nat :=
  t.istream.length + (if t.eof then 0 else 1)

/-- The whitespace-skipping loop of `Tokenizer::tokenize`
(`while !self.eof && self.last.is_whitespace()`), fuel-indexed. -/
def skipWsF : Nat → Tokenizer → Tokenizer
  | 0, t => t
  | fuel + 1, t =>
    if ¬t.eof ∧ rustIsWhitespace t.last then skipWsF fuel (next t) else t

/-- The whitespace-skipping loop with sufficient fuel. -/
def skipWs (t : Tokenizer) : Tokenizer := skipWsF (size t + 1) t

/-- Identifier continuation characters of `Tokenizer::read_word`. -/
def isWordChar (c : Char) : Bool :=
  isAlphabetic c || isNumeric c || c == '?' || c == '!' || c == '-' || c == '_'

/-- The accumulation loop of `Tokenizer::read_word`, fuel-indexed. -/
def read_wordF : Nat → Tokenizer → String → String × Tokenizer
  | 0, t, buf => (buf, t)
  | fuel + 1, t, buf =>
    if ¬t.eof ∧ isWordChar t.last then read_wordF fuel (next t) (buf.push t.last)
    else (buf, t)

/-- The keyword table of `Tokenizer::read_word`. -/
def keywordOf (buf : String) : Token :=
  match buf with
  | "method" => Token.KwMethod
  | "given" => Token.KwGiven
  | "when" => Token.KwWhen
  | "default" => Token.KwDefault
  | "true" => Token.KwTrue
  | "false" => Token.KwFalse
  | _ => Token.Ident buf

/-- `Tokenizer::read_word`. -/
def read_word (t : Tokenizer) : Token × Tokenizer :=
  let r := read_wordF (size t + 1) t ""
  (keywordOf r.1, r.2)

/-- Number continuation characters of `Tokenizer::read_num`. -/
def isNumChar (c : Char) : Bool := isNumeric c || c == '_'

/-- The accumulation loop of `Tokenizer::read_num`, fuel-indexed. -/
def read_numF : Nat → Tokenizer → String → String × Tokenizer
  | 0, t, buf => (buf, t)
  | fuel + 1, t, buf =>
    if ¬t.eof ∧ isNumChar t.last then read_numF fuel (next t) (buf.push t.last)
    else (buf, t)

/-- `Tokenizer::read_num`. -/
def read_num (t : Tokenizer) : Token × Tokenizer :=
  let r := read_numF (size t + 1) t ""
  (Token.Num r.1, r.2)

/-- The error message of `Tokenizer::read_str` for a newline inside a string. -/
def newlineMsg (line col : Nat) : String :=
  "Unterminated string started at " ++ Nat.repr line ++ ":" ++ Nat.repr col ++
  " — found a newline before the closing quote. Keep strings on one line."

/-- The error message of `Tokenizer::read_str` for end of input inside a string. -/
def eofMsg (line col : Nat) : String :=
  "Unterminated string started at " ++ Nat.repr line ++ ":" ++ Nat.repr col ++
  " — reached end of input before closing quote. Add a closing '\"'."

/-- The scanning loop of `Tokenizer::read_str` (after the opening quote has
been consumed), fuel-indexed.  The fuel-0 branch is unreachable at the fuel
the wrapper supplies. -/
def read_strF : Nat → Tokenizer → String → Token × Tokenizer
  | 0, t, buf => (Token.Str buf, t)
  | fuel + 1, t, buf =>
    if ¬t.eof ∧ t.last ≠ '"' then
      if t.last = '\n' then (Token.Error (newlineMsg t.line t.col), t)
      else read_strF fuel (next t) (buf.push t.last)
    else if t.eof then (Token.Error (eofMsg t.line t.col), t)
    else (Token.Str buf, next t)

/-- `Tokenizer::read_str`: skip the opening quote, then scan. -/
def read_str (t : Tokenizer) : Token × Tokenizer :=
  read_strF (size (next t) + 1) (next t) ""

/-- The error message of `Tokenizer::tokenize` for an unknown character. -/
def unknownMsg (c : Char) (line col : Nat) : String :=
  "Unknown character '" ++ String.singleton c ++ "' at " ++ Nat.repr line ++
  ":" ++ Nat.repr col ++
  " — did you mean an operator, identifier or a string? Try adding spaces, or wrap text in double quotes."

/-- The dispatch part of `Tokenizer::tokenize`, after whitespace skipping:
capture `(line, col)`, return `Eof` at end of input, otherwise match the
lookahead.  The Rust `advance` flag is reflected by whether a branch ends in
`next`. -/
def tokenizeCore (t : Tokenizer) : TokenAt × Tokenizer :=
  let line := t.line
  let col := t.col
  if t.eof then (⟨Token.Eof, line, col⟩, t)
  else
    match t.last with
    | '.' => (⟨Token.Dot, line, col⟩, next t)
    | ',' => (⟨Token.Comma, line, col⟩, next t)
    | '(' => (⟨Token.LParen, line, col⟩, next t)
    | ')' => (⟨Token.RParen, line, col⟩, next t)
    | '{' => (⟨Token.LBrace, line, col⟩, next t)
    | '}' => (⟨Token.RBrace, line, col⟩, next t)
    | ':' => (⟨Token.Colon, line, col⟩, next t)
    | ';' => (⟨Token.Semicolon, line, col⟩, next t)
    | '+' => (⟨Token.Plus, line, col⟩, next t)
    | '-' => (⟨Token.Minus, line, col⟩, next t)
    | '*' => (⟨Token.Star, line, col⟩, next t)
    | '/' =>
      let t1 := next t
      if ¬t1.eof ∧ t1.last = '=' then (⟨Token.NotEqual, line, col⟩, next t1)
      else (⟨Token.Slash, line, col⟩, t1)
    | '&' => (⟨Token.And, line, col⟩, next t)
    | '|' => (⟨Token.Or, line, col⟩, next t)
    | '<' =>
      let t1 := next t
      if ¬t1.eof ∧ t1.last = '=' then (⟨Token.LessThan, line, col⟩, next t1)
      else (⟨Token.Less, line, col⟩, t1)
    | '>' =>
      let t1 := next t
      if ¬t1.eof ∧ t1.last = '=' then (⟨Token.GreaterThan, line, col⟩, next t1)
      else (⟨Token.Greater, line, col⟩, t1)
    | '=' =>
      let t1 := next t
      if ¬t1.eof ∧ t1.last = '=' then (⟨Token.Equal, line, col⟩, next t1)
      else (⟨Token.Assign, line, col⟩, t1)
    | c =>
      if isAlphabetic c then
        let r := read_word t
        (⟨r.1, line, col⟩, r.2)
      else if isNumeric c then
        let r := read_num t
        (⟨r.1, line, col⟩, r.2)
      else if c = '"' then
        let r := read_str t
        (⟨r.1, line, col⟩, r.2)
      else (⟨Token.Error (unknownMsg c line col), line, col⟩, t)

/-- `Tokenizer::tokenize`: skip whitespace, then dispatch. -/
def tokenize (t : Tokenizer) : TokenAt × Tokenizer :=
  tokenizeCore (skipWs t)

/-- The characters the scanning loops still have to examine: the lookahead
followed by the remaining stream (empty once `eof` is set). -/
def effStream (t : Tokenizer) : List Char :=
  if t.eof then [] else t.last :: t.istream

/-- A terminal token: `Eof` or `Error`. -/
def isTerminal : Token → Bool
  | Token.Eof => true
  | Token.Error _ => true
  | _ => false

/-- Modelled from the spec: the repository's `src/` has no sequence-view
(iterator) adapter over the tokenizer — only the single pull operation
`tokenize` exists — so the derived sequence view of §6 of the spec is
modelled here from the spec's words: a lazy, finite, single-pass sequence of
`TokenAt` values built over the pull operation, which stops producing values
as soon as `Eof` or `Error` is reached internally and never yields the
terminal value to its consumer. -/
def seqView : Nat → Tokenizer → List TokenAt
  | 0, _ => []
  | fuel + 1, t =>
    let r := tokenize t
    if isTerminal r.1.token then [] else r.1 :: seqView fuel r.2

/-- The characters with explicit arms in the `match` of `Tokenizer::tokenize`. -/
def dispatchChars : List Char :=
  ['.', ',', '(', ')', '{', '}', ':', ';', '+', '-', '*', '/', '&', '|', '<', '>', '=']

/-- A character that reaches the `Error` arm of the dispatch: no explicit
match arm, not alphabetic, not numeric, not a double quote. -/
def isUnknown (c : Char) : Bool :=
  !(dispatchChars.contains c) && !(isAlphabetic c) && !(isNumeric c) && !(c = '"')

/-- A character that keeps the string-scanning loop running: neither the
closing quote nor a newline. -/
def strBody (c : Char) : Bool := !(c = '"') && !(c = '\n')

/-- Invariant of every reachable lexer state: the line counter is at least 1,
and the column is at least 1 except before the first character has been
consumed, where it is 0 and the lookahead is the initial (whitespace) dummy. -/
def Inv (t : Tokenizer) : Prop :=
  1 ≤ t.line ∧ (1 ≤ t.col ∨ (t.col = 0 ∧ rustIsWhitespace t.last = true))

/-- Concrete input used by counterexamples and witnesses: a comment-like line. -/
def srcHashComment : String := "# c\nx"

/-- Concrete input: a number with a decimal point followed by a digit. -/
def srcDotFive : String := "1.5"

/-- Concrete input: a newline followed by an identifier. -/
def srcNewlineA : String := "\na"

/-- Concrete input: a single identifier character. -/
def srcPlainA : String := "a"

/-- Concrete input: empty source text. -/
def srcEmpty : String := ""

/-- Concrete input: a left square bracket. -/
def srcLBracket : String := "["

/-- Concrete input: a right square bracket. -/
def srcRBracket : String := "]"

/-- Concrete input: a tilde. -/
def srcTilde : String := "~"

/-- Concrete input: an equals sign followed by a greater-than sign. -/
def srcEqGt : String := "=>"

/-- Concrete input: an equals sign followed by an identifier character. -/
def srcEqA : String := "=a"

/-- Concrete input: a lone unknown character. -/
def srcAt : String := "@"

/-- The lexer state reached by skipping whitespace on `srcHashComment`. -/
def hashCommentState : Tokenizer :=
  { istream := [' ', 'c', '\n', 'x'], last := '#', eof := false, line := 1, col := 1 }

/-- The lexer state reached by skipping whitespace on `srcLBracket`. -/
def lbracketState : Tokenizer :=
  { istream := [], last := '[', eof := false, line := 1, col := 1 }

/-- The lexer state reached by skipping whitespace on `srcEqA`. -/
def eqAState : Tokenizer :=
  { istream := ['a'], last := '=', eof := false, line := 1, col := 1 }

/-- The lexer state reached by skipping whitespace on `srcAt`. -/
def atState : Tokenizer :=
  { istream := [], last := '@', eof := false, line := 1, col := 1 }

/-- The lexer state after pulling the `Eof` token of the empty input. -/
def emptyEofState : Tokenizer :=
  { istream := [], last := ' ', eof := true, line := 1, col := 0 }

/-- A lexer state at a string dispatch: the lookahead is the opening quote of
the literal `"ab"` with trailing input. -/
def strState : Tokenizer :=
  { istream := ['a', 'b', '"', ' ', 'x'], last := '"', eof := false, line := 1, col := 1 }

end Cortado

namespace Cortado

/-! ## Basic facts about `next`, `size` and `effStream` -/

theorem next_of_eof (t : Tokenizer) (h : t.eof = true) : next t = t := by
  simp [next, h]

theorem size_next_lt (t : Tokenizer) (h : t.eof = false) : size (next t) < size t := by
  cases t with
  | mk istream last eof line col =>
    subst h
    cases istream with
    | nil => simp [next, size]
    | cons c rest => by_cases hc : c = '\n' <;> simp [next, size, hc]

theorem effStream_next (t : Tokenizer) (h : t.eof = false) :
    effStream (next t) = t.istream := by
  cases t with
  | mk istream last eof line col =>
    subst h
    cases istream with
    | nil => simp [next, effStream]
    | cons c rest => by_cases hc : c = '\n' <;> simp [next, effStream, hc]

theorem effStream_of_not_eof (t : Tokenizer) (h : t.eof = false) :
    effStream t = t.last :: t.istream := by
  simp [effStream, h]

/-! ## Generic preservation of a predicate along the loops -/

theorem skipWsF_pres (P : Tokenizer → Prop) (hP : ∀ u, P u → P (next u)) :
    ∀ fuel t, P t → P (skipWsF fuel t) := by
  intro fuel
  induction fuel with
  | zero => intro t h; exact h
  | succ n ih =>
    intro t h
    simp only [skipWsF]
    split
    · exact ih _ (hP _ h)
    · exact h

theorem read_wordF_pres (P : Tokenizer → Prop) (hP : ∀ u, P u → P (next u)) :
    ∀ fuel t buf, P t → P (read_wordF fuel t buf).2 := by
  intro fuel
  induction fuel with
  | zero => intro t buf h; exact h
  | succ n ih =>
    intro t buf h
    simp only [read_wordF]
    split
    · exact ih _ _ (hP _ h)
    · exact h

theorem read_numF_pres (P : Tokenizer → Prop) (hP : ∀ u, P u → P (next u)) :
    ∀ fuel t buf, P t → P (read_numF fuel t buf).2 := by
  intro fuel
  induction fuel with
  | zero => intro t buf h; exact h
  | succ n ih =>
    intro t buf h
    simp only [read_numF]
    split
    · exact ih _ _ (hP _ h)
    · exact h

theorem read_strF_pres (P : Tokenizer → Prop) (hP : ∀ u, P u → P (next u)) :
    ∀ fuel t buf, P t → P (read_strF fuel t buf).2 := by
  intro fuel
  induction fuel with
  | zero => intro t buf h; exact h
  | succ n ih =>
    intro t buf h
    simp only [read_strF]
    split
    · split
      · exact h
      · exact ih _ _ (hP _ h)
    · split
      · exact h
      · exact hP _ h


theorem tokenizeCore_pres (P : Tokenizer → Prop) (hP : ∀ u, P u → P (next u))
    (t : Tokenizer) (h : P t) : P (tokenizeCore t).2 := by
  unfold tokenizeCore
  split
  · exact h
  · split <;>
      first
        | exact hP _ h
        | (dsimp only
           split
           · exact hP _ (hP _ h)
           · exact hP _ h)
        | (dsimp only
           split
           · exact read_wordF_pres P hP _ _ _ h
           · split
             · exact read_numF_pres P hP _ _ _ h
             · split
               · exact read_strF_pres P hP _ _ _ (hP _ h)
               · exact h)

theorem skipWs_pres (P : Tokenizer → Prop) (hP : ∀ u, P u → P (next u))
    (t : Tokenizer) (h : P t) : P (skipWs t) :=
  skipWsF_pres P hP _ t h

theorem tokenize_pres (P : Tokenizer → Prop) (hP : ∀ u, P u → P (next u))
    (t : Tokenizer) (h : P t) : P (tokenize t).2 :=
  tokenizeCore_pres P hP _ (skipWs_pres P hP t h)


/-! ## The captured position and the `Eof` branch of the dispatch -/

theorem tokenizeCore_pos (t : Tokenizer) :
    (tokenizeCore t).1.line = t.line ∧ (tokenizeCore t).1.col = t.col := by
  unfold tokenizeCore
  split
  · exact ⟨rfl, rfl⟩
  · split <;>
      first
        | exact ⟨rfl, rfl⟩
        | (dsimp only
           split
           · exact ⟨rfl, rfl⟩
           · exact ⟨rfl, rfl⟩)
        | (dsimp only
           split
           · exact ⟨rfl, rfl⟩
           · split
             · exact ⟨rfl, rfl⟩
             · split
               · exact ⟨rfl, rfl⟩
               · exact ⟨rfl, rfl⟩)

theorem tokenizeCore_eof (t : Tokenizer) (h : t.eof = true) :
    tokenizeCore t = (⟨Token.Eof, t.line, t.col⟩, t) := by
  unfold tokenizeCore
  simp [h]

theorem keywordOf_ne_eof (s : String) : keywordOf s ≠ Token.Eof := by
  unfold keywordOf
  split <;> simp

theorem keywordOf_not_terminal (s : String) : isTerminal (keywordOf s) = false := by
  unfold keywordOf
  split <;> rfl

theorem read_strF_shape (fuel : Nat) :
    ∀ t buf, (∃ s, (read_strF fuel t buf).1 = Token.Str s) ∨
      (∃ m, (read_strF fuel t buf).1 = Token.Error m) := by
  induction fuel with
  | zero => intro t buf; exact Or.inl ⟨buf, rfl⟩
  | succ n ih =>
    intro t buf
    simp only [read_strF]
    split
    · split
      · exact Or.inr ⟨_, rfl⟩
      · exact ih _ _
    · split
      · exact Or.inr ⟨_, rfl⟩
      · exact Or.inl ⟨buf, rfl⟩

theorem tokenizeCore_ne_eof (t : Tokenizer) (h : t.eof = false) :
    (tokenizeCore t).1.token ≠ Token.Eof := by
  unfold tokenizeCore
  rw [h]
  simp only [Bool.false_eq_true, if_false]
  split <;>
    first
      | (simp; done)
      | (split <;> simp
         done)
      | (split
         · exact keywordOf_ne_eof _
         · split
           · simp [read_num]
           · split
             · (rcases read_strF_shape (size (next t) + 1) (next t) "" with ⟨w, hw⟩ | ⟨w, hw⟩ <;>
                  simp [read_str, hw])
             · simp)


/-! ## Facts about the whitespace-skipping loop -/

theorem skipWsF_stop :
    ∀ fuel t, size t < fuel →
      (skipWsF fuel t).eof = true ∨ rustIsWhitespace (skipWsF fuel t).last = false := by
  intro fuel
  induction fuel with
  | zero => intro t h; exact absurd h (Nat.not_lt_zero _)
  | succ n ih =>
    intro t h
    simp only [skipWsF]
    split
    · rename_i hg
      exact ih (next t) (Nat.lt_of_lt_of_le (size_next_lt t (by simpa using hg.1)) (Nat.lt_succ_iff.mp h))
    · rename_i hg
      rcases not_and_or.mp hg with h1 | h2
      · left; simpa using h1
      · right; simpa using h2

theorem skipWs_stop (t : Tokenizer) :
    (skipWs t).eof = true ∨ rustIsWhitespace (skipWs t).last = false :=
  skipWsF_stop _ t (Nat.lt_succ_self _)

theorem skipWsF_fix (fuel : Nat) (t : Tokenizer)
    (h : t.eof = true ∨ rustIsWhitespace t.last = false) : skipWsF fuel t = t := by
  cases fuel with
  | zero => rfl
  | succ n =>
    simp only [skipWsF]
    rcases h with h | h <;> simp [h]

theorem skipWs_fix (t : Tokenizer)
    (h : t.eof = true ∨ rustIsWhitespace t.last = false) : skipWs t = t :=
  skipWsF_fix _ t h

theorem skipWs_idem (t : Tokenizer) : skipWs (skipWs t) = skipWs t :=
  skipWs_fix _ (skipWs_stop t)


/-! ## The unknown-character branch of the dispatch -/

set_option maxHeartbeats 1000000 in
theorem tokenizeCore_unknown (t : Tokenizer) (he : t.eof = false)
    (hu : isUnknown t.last = true) :
    tokenizeCore t = (⟨Token.Error (unknownMsg t.last t.line t.col), t.line, t.col⟩, t) := by
  have hu' : ¬(t.last ∈ dispatchChars) ∧ isAlphabetic t.last = false ∧
      isNumeric t.last = false ∧ ¬(t.last = '"') := by
    simpa [isUnknown, and_assoc] using hu
  have hne : ¬(t.last = '.' ∨ t.last = ',' ∨ t.last = '(' ∨ t.last = ')' ∨
      t.last = '{' ∨ t.last = '}' ∨ t.last = ':' ∨ t.last = ';' ∨ t.last = '+' ∨
      t.last = '-' ∨ t.last = '*' ∨ t.last = '/' ∨ t.last = '&' ∨ t.last = '|' ∨
      t.last = '<' ∨ t.last = '>' ∨ t.last = '=') := by
    simpa [dispatchChars] using hu'.1
  unfold tokenizeCore
  rw [if_neg (by simp [he])]
  split <;>
    first
      | (rename_i heq; simp [heq] at hne; done)
      | simp [hu'.2.1, hu'.2.2.1, hu'.2.2.2]


/-! ## The `=` arm of the dispatch -/

theorem tokenizeCore_eq_dispatch (t : Tokenizer) (he : t.eof = false) (hl : t.last = '=') :
    tokenizeCore t =
      (if ¬(next t).eof = true ∧ (next t).last = '=' then
        (⟨Token.Equal, t.line, t.col⟩, next (next t))
       else (⟨Token.Assign, t.line, t.col⟩, next t)) := by
  unfold tokenizeCore
  rw [if_neg (by simp [he]), hl]
  rfl


/-! ## String helpers -/

theorem push_append_mk (buf : String) (c : Char) (l : List Char) :
    (buf.push c) ++ String.mk l = buf ++ String.mk (c :: l) := by
  cases buf with
  | mk d =>
    show String.mk ((d ++ [c]) ++ l) = String.mk (d ++ (c :: l))
    rw [List.append_assoc]
    rfl

theorem append_mk_nil (s : String) : s ++ String.mk [] = s := by
  cases s with
  | mk d =>
    show String.mk (d ++ []) = String.mk d
    rw [List.append_nil]

/-! ## A complete characterisation of the number-scanning loop -/

theorem read_numF_spec :
    ∀ fuel t buf, size t < fuel →
      (read_numF fuel t buf).1 = buf ++ String.mk ((effStream t).takeWhile isNumChar) ∧
      effStream (read_numF fuel t buf).2 = (effStream t).dropWhile isNumChar := by
  intro fuel
  induction fuel with
  | zero => intro t buf h; exact absurd h (Nat.not_lt_zero _)
  | succ n ih =>
    intro t buf h
    simp only [read_numF]
    split
    · rename_i hg
      have he : t.eof = false := by simpa using hg.1
      have hnc : isNumChar t.last = true := hg.2
      have hstep := ih (next t) (buf.push t.last)
        (Nat.lt_of_lt_of_le (size_next_lt t he) (Nat.lt_succ_iff.mp h))
      rw [effStream_of_not_eof t he, List.takeWhile_cons_of_pos hnc,
        List.dropWhile_cons_of_pos hnc, ← effStream_next t he]
      rw [hstep.1, hstep.2, push_append_mk]
      exact ⟨rfl, rfl⟩
    · rename_i hg
      by_cases he : t.eof = true
      · simp [effStream, he, append_mk_nil]
      · have he' : t.eof = false := by simpa using he
        have hnc : isNumChar t.last = false := by
          rcases not_and_or.mp hg with h1 | h2
          · exact absurd he' (by simpa using h1)
          · simpa using h2
        rw [effStream_of_not_eof t he',
          List.takeWhile_cons_of_neg (by simp [hnc]),
          List.dropWhile_cons_of_neg (by simp [hnc]), append_mk_nil]
        exact ⟨rfl, rfl⟩


/-! ## A complete characterisation of the string-scanning loop -/

theorem read_strF_spec :
    ∀ fuel t buf, size t < fuel →
      ((effStream t).dropWhile strBody = [] →
        ∃ l c, (read_strF fuel t buf).1 = Token.Error (eofMsg l c)) ∧
      (((effStream t).dropWhile strBody).head? = some '\n' →
        ∃ l c, (read_strF fuel t buf).1 = Token.Error (newlineMsg l c)) ∧
      (((effStream t).dropWhile strBody).head? = some '"' →
        (read_strF fuel t buf).1 =
          Token.Str (buf ++ String.mk ((effStream t).takeWhile strBody)) ∧
        effStream (read_strF fuel t buf).2 = ((effStream t).dropWhile strBody).tail) := by
  intro fuel
  induction fuel with
  | zero => intro t buf h; exact absurd h (Nat.not_lt_zero _)
  | succ n ih =>
    intro t buf h
    simp only [read_strF]
    split
    · rename_i hg
      have he : t.eof = false := by simpa using hg.1
      have hq : ¬(t.last = '"') := hg.2
      split
      · rename_i hn
        have hb : strBody t.last = false := by simp [strBody, hn]
        rw [effStream_of_not_eof t he, List.dropWhile_cons_of_neg (by simp [hb])]
        refine ⟨?_, ?_, ?_⟩
        · intro hcase; exact absurd hcase (List.cons_ne_nil _ _)
        · intro _; exact ⟨t.line, t.col, rfl⟩
        · intro hcase
          rw [List.head?_cons, Option.some_inj] at hcase
          exact absurd hcase hq
      · rename_i hn
        have hb : strBody t.last = true := by simp [strBody, hq, hn]
        have hstep := ih (next t) (buf.push t.last)
          (Nat.lt_of_lt_of_le (size_next_lt t he) (Nat.lt_succ_iff.mp h))
        rw [effStream_of_not_eof t he, List.takeWhile_cons_of_pos hb,
          List.dropWhile_cons_of_pos hb, ← effStream_next t he]
        refine ⟨hstep.1, hstep.2.1, fun hc => ⟨?_, (hstep.2.2 hc).2⟩⟩
        rw [← push_append_mk]
        exact (hstep.2.2 hc).1
    · rename_i hg
      split
      · rename_i he
        refine ⟨fun _ => ⟨t.line, t.col, rfl⟩, ?_, ?_⟩ <;>
          (intro hcase; rw [effStream] at hcase; simp [he] at hcase)
      · rename_i he
        have he' : t.eof = false := by simpa using he
        have hq : t.last = '"' := by
          rcases not_and_or.mp hg with h1 | h2
          · exact absurd he' (by simpa using h1)
          · simpa using h2
        have hb : strBody t.last = false := by simp [strBody, hq]
        rw [effStream_of_not_eof t he', List.dropWhile_cons_of_neg (by simp [hb]),
          List.takeWhile_cons_of_neg (by simp [hb])]
        refine ⟨?_, ?_, ?_⟩
        · intro hcase; exact absurd hcase (List.cons_ne_nil _ _)
        · intro hcase
          rw [List.head?_cons, Option.some_inj] at hcase
          rw [hq] at hcase
          exact absurd hcase (by decide)
        · intro _
          constructor
          · show Token.Str buf = Token.Str (buf ++ String.mk [])
            rw [append_mk_nil]
          · show effStream (next t) = t.istream
            exact effStream_next t he'


/-! ## Substring facts about the error messages -/

theorem data_append (x y : String) : (x ++ y).data = x.data ++ y.data := by
  cases x; cases y; rfl

theorem isInfix_append_right {α : Type} {b y : List α} (x : List α) (h : b <:+: y) :
    b <:+: x ++ y := by
  obtain ⟨s, u, rfl⟩ := h
  exact ⟨x ++ s, u, by simp [List.append_assoc]⟩

theorem isInfix_append_left {α : Type} {b x : List α} (y : List α) (h : b <:+: x) :
    b <:+: x ++ y := by
  obtain ⟨s, u, rfl⟩ := h
  exact ⟨s, u ++ y, by simp [List.append_assoc]⟩

theorem newlineMsg_data (l c : Nat) :
    (newlineMsg l c).data =
      "Unterminated string started at ".data ++
      ((Nat.repr l).data ++ (":".data ++ ((Nat.repr c).data ++
      " — found a newline before the closing quote. Keep strings on one line.".data))) := by
  unfold newlineMsg
  rw [data_append, data_append, data_append, data_append]
  simp [List.append_assoc]

theorem eofMsg_data (l c : Nat) :
    (eofMsg l c).data =
      "Unterminated string started at ".data ++
      ((Nat.repr l).data ++ (":".data ++ ((Nat.repr c).data ++
      " — reached end of input before closing quote. Add a closing '\"'.".data))) := by
  unfold eofMsg
  rw [data_append, data_append, data_append, data_append]
  simp [List.append_assoc]

theorem newlineMsg_mentions (l c : Nat) :
    "Unterminated string".data <:+: (newlineMsg l c).data ∧
    "newline".data <:+: (newlineMsg l c).data := by
  rw [newlineMsg_data]
  constructor
  · exact isInfix_append_left _ ⟨[], " started at ".data, rfl⟩
  · refine isInfix_append_right _ (isInfix_append_right _ (isInfix_append_right _
      (isInfix_append_right _ ?_)))
    exact ⟨" — found a ".data, " before the closing quote. Keep strings on one line.".data, rfl⟩

theorem eofMsg_mentions (l c : Nat) :
    "end of input".data <:+: (eofMsg l c).data ∧
    "closing".data <:+: (eofMsg l c).data := by
  rw [eofMsg_data]
  constructor
  · refine isInfix_append_right _ (isInfix_append_right _ (isInfix_append_right _
      (isInfix_append_right _ ?_)))
    exact ⟨" — reached ".data, " before closing quote. Add a closing '\"'.".data, rfl⟩
  · refine isInfix_append_right _ (isInfix_append_right _ (isInfix_append_right _
      (isInfix_append_right _ ?_)))
    exact ⟨" — reached end of input before ".data, " quote. Add a closing '\"'.".data, rfl⟩


/-! ## Position counters: invariant and monotonicity -/

theorem Inv_new (s : String) : Inv (Tokenizer.new s) := by
  refine ⟨le_refl 1, Or.inr ⟨rfl, ?_⟩⟩
  show rustIsWhitespace ' ' = true
  decide

theorem Inv_next (t : Tokenizer) (h : Inv t) : Inv (next t) := by
  obtain ⟨h1, h2⟩ := h
  by_cases he : t.eof = true
  · rw [next_of_eof t he]; exact ⟨h1, h2⟩
  · have he' : t.eof = false := by simpa using he
    cases t with
    | mk istream last eof line col =>
      subst he'
      cases istream with
      | nil => exact ⟨h1, h2⟩
      | cons a rest =>
        by_cases ha : a = '\n' <;> (simp [next, ha, Inv] at h1 h2 ⊢; try omega)

theorem next_line_le (t : Tokenizer) : t.line ≤ (next t).line := by
  by_cases he : t.eof = true
  · rw [next_of_eof t he]
  · have he' : t.eof = false := by simpa using he
    cases t with
    | mk istream last eof line col =>
      subst he'
      cases istream with
      | nil => exact le_refl _
      | cons a rest =>
        by_cases ha : a = '\n' <;> simp [next, ha]

theorem skipWs_line_le (t : Tokenizer) : t.line ≤ (skipWs t).line :=
  skipWs_pres (fun u => t.line ≤ u.line) (fun u h => le_trans h (next_line_le u)) t (le_refl _)

theorem tokenize_state_line_le (t : Tokenizer) : t.line ≤ (tokenize t).2.line :=
  tokenize_pres (fun u => t.line ≤ u.line) (fun u h => le_trans h (next_line_le u)) t (le_refl _)

theorem tokenize_tok_line (t : Tokenizer) : (tokenize t).1.line = (skipWs t).line :=
  (tokenizeCore_pos (skipWs t)).1

theorem tokenize_tok_col (t : Tokenizer) : (tokenize t).1.col = (skipWs t).col :=
  (tokenizeCore_pos (skipWs t)).2

theorem tokenizeCore_state_line_le (u : Tokenizer) : u.line ≤ (tokenizeCore u).2.line :=
  tokenizeCore_pres (fun v => u.line ≤ v.line) (fun v h => le_trans h (next_line_le v)) u (le_refl _)

/-- Consecutive pulled tokens have non-decreasing line numbers. -/
theorem tokenize_line_mono (t : Tokenizer) :
    (tokenize t).1.line ≤ (tokenize (tokenize t).2).1.line := by
  rw [tokenize_tok_line, tokenize_tok_line]
  exact le_trans (tokenizeCore_state_line_le (skipWs t)) (skipWs_line_le (tokenize t).2)

/-- Consuming a newline sets the column counter to 1 (and bumps the line). -/
theorem next_newline (t : Tokenizer) (he : t.eof = false) (rest : List Char)
    (hh : t.istream = '\n' :: rest) :
    (next t).col = 1 ∧ (next t).line = t.line + 1 ∧ (next t).eof = false ∧
    (next t).istream = rest := by
  cases t with
  | mk istream last eof line col =>
    subst he
    simp only at hh
    subst hh
    simp [next]

/-- Consuming a non-newline character increments the column counter. -/
theorem next_other (t : Tokenizer) (he : t.eof = false) (a : Char) (rest : List Char)
    (hh : t.istream = a :: rest) (ha : ¬(a = '\n')) :
    (next t).col = t.col + 1 := by
  cases t with
  | mk istream last eof line col =>
    subst he
    simp only at hh
    subst hh
    simp [next, ha]


/-! ## The claims -/

/-- C1, counterexample: on the input `"# c\nx"` the `#` is not treated as a
comment marker: instead of silently consuming through end-of-line and then
producing `Ident "x"`, the very first pull returns an unknown-character
`Error` token at the `#`, leaving the `#` unconsumed. -/
theorem C1_counterexample :
    (tokenize (Tokenizer.new srcHashComment)).1 = ⟨Token.Error (unknownMsg '#' 1 1), 1, 1⟩ ∧
    (tokenize (Tokenizer.new srcHashComment)).1.token ≠ Token.Ident "x" ∧
    (tokenize (Tokenizer.new srcHashComment)).2 = hashCommentState := by
  decide

/-- C1 (amended): the lexer has no comment support.  Whenever the lookahead
at dispatch (after whitespace skipping) is the comment marker `#`, nothing is
consumed or discarded: the pull returns an unknown-character `Error` token
naming `#` at the captured position and leaves the state exactly at the
post-whitespace state. -/
theorem C1_hash_dispatch_errors (t u : Tokenizer) (hsk : skipWs t = u)
    (he : u.eof = false) (hl : u.last = '#') :
    tokenize t = (⟨Token.Error (unknownMsg '#' u.line u.col), u.line, u.col⟩, u) := by
  show tokenizeCore (skipWs t) = _
  rw [hsk]
  have h := tokenizeCore_unknown u he (by rw [hl]; decide)
  rw [hl] at h
  exact h

/-- C1, witness: the amended theorem applied to the concrete input `"# c\nx"`. -/
theorem C1_hash_dispatch_errors_witness :
    tokenize (Tokenizer.new srcHashComment) =
      (⟨Token.Error (unknownMsg '#' 1 1), 1, 1⟩, hashCommentState) :=
  C1_hash_dispatch_errors (Tokenizer.new srcHashComment) hashCommentState rfl rfl rfl

/-- C2, counterexample: on the input `"1.5"` the number scanner does not
consume the decimal point even though it is immediately followed by a digit;
the input lexes as three tokens `Num "1"`, `Dot`, `Num "5"` and no
float-style token `Num "1.5"` is produced. -/
theorem C2_counterexample :
    (tokenize (Tokenizer.new srcDotFive)).1.token = Token.Num "1" ∧
    (tokenize (tokenize (Tokenizer.new srcDotFive)).2).1.token = Token.Dot ∧
    (tokenize (tokenize (tokenize (Tokenizer.new srcDotFive)).2).2).1.token = Token.Num "5" ∧
    (tokenize (Tokenizer.new srcDotFive)).1.token ≠ Token.Num "1.5" := by
  decide

/-- C2 (amended): the number scanner never consumes a decimal point.  It
accumulates exactly the maximal prefix of digit/underscore characters, always
produces a `Num` token (the only numeric token kind; there is no float
variant) whose lexeme is that raw text — in particular no `'.'` ever occurs
in the lexeme — and leaves everything from the first non-digit/underscore
character (such as a `'.'`) unconsumed for the next dispatch. -/
theorem C2_read_num_no_dot (t : Tokenizer) :
    (read_num t).1 = Token.Num (String.mk ((effStream t).takeWhile isNumChar)) ∧
    ¬('.' ∈ (effStream t).takeWhile isNumChar) ∧
    effStream (read_num t).2 = (effStream t).dropWhile isNumChar := by
  have hs := read_numF_spec (size t + 1) t "" (Nat.lt_succ_self _)
  refine ⟨?_, ?_, hs.2⟩
  · show Token.Num (read_numF (size t + 1) t "").1 = _
    rw [hs.1]
    have hemp : ("" : String) ++ String.mk ((effStream t).takeWhile isNumChar) =
        String.mk ((effStream t).takeWhile isNumChar) := by
      show String.mk ([] ++ (effStream t).takeWhile isNumChar) = _
      rw [List.nil_append]
    rw [hemp]
  · intro hmem
    exact absurd (List.mem_takeWhile_imp hmem) (by decide)

/-- C3, counterexample: on the input `"\na"` the token `Ident "a"`
immediately follows a consumed newline yet has column 2, and on the input
`"a"` the token `Ident "a"` has column 1 without following any newline —
both directions of the claimed equivalence fail. -/
theorem C3_counterexample :
    (tokenize (Tokenizer.new srcNewlineA)).1 = ⟨Token.Ident "a", 2, 2⟩ ∧
    (tokenize (Tokenizer.new srcPlainA)).1 = ⟨Token.Ident "a", 1, 1⟩ := by
  decide

/-- C3 (amended): line numbers of successively pulled tokens are
non-decreasing; but the column counter is set to 1 at the consumed newline
character itself, so the character consumed immediately after a newline is at
column 2 (not 1). -/
theorem C3_line_mono_col_after_newline :
    (∀ t : Tokenizer, (tokenize t).1.line ≤ (tokenize (tokenize t).2).1.line) ∧
    (∀ u rest, u.eof = false → u.istream = '\n' :: rest →
      (next u).col = 1 ∧
      (∀ a rest2, rest = a :: rest2 → ¬(a = '\n') → (next (next u)).col = 2)) := by
  constructor
  · exact tokenize_line_mono
  · intro u rest he hh
    obtain ⟨hc, _, he2, hi⟩ := next_newline u he rest hh
    refine ⟨hc, ?_⟩
    intro a rest2 hr ha
    have h2 := next_other (next u) he2 a rest2 (by rw [hi, hr]) ha
    rw [h2, hc]

/-- C3, witness: the amended theorem applied to the concrete inputs `"a"`
and `"\na"`. -/
theorem C3_line_mono_col_after_newline_witness :
    (tokenize (Tokenizer.new srcPlainA)).1.line ≤
      (tokenize (tokenize (Tokenizer.new srcPlainA)).2).1.line ∧
    (next (Tokenizer.new srcNewlineA)).col = 1 ∧
    (next (next (Tokenizer.new srcNewlineA))).col = 2 :=
  ⟨C3_line_mono_col_after_newline.1 (Tokenizer.new srcPlainA),
   (C3_line_mono_col_after_newline.2 (Tokenizer.new srcNewlineA) ['a'] rfl rfl).1,
   (C3_line_mono_col_after_newline.2 (Tokenizer.new srcNewlineA) ['a'] rfl rfl).2
     'a' [] rfl (by decide)⟩

/-- C4, counterexample: `'['`, `']'` and `'~'` are not lexed as
single-character tokens: each produces an unknown-character `Error` token
(the `Token` type has no bracket or tilde variants at all), and the
character is not consumed. -/
theorem C4_counterexample :
    (tokenize (Tokenizer.new srcLBracket)).1.token = Token.Error (unknownMsg '[' 1 1) ∧
    (tokenize (Tokenizer.new srcRBracket)).1.token = Token.Error (unknownMsg ']' 1 1) ∧
    (tokenize (Tokenizer.new srcTilde)).1.token = Token.Error (unknownMsg '~' 1 1) ∧
    (tokenize (Tokenizer.new srcLBracket)).2.last = '[' := by
  decide

/-- C4 (amended): when the lookahead at dispatch is `'['`, `']'` or `'~'`,
the lexer emits an unknown-character `Error` token naming that character and
consumes nothing. -/
theorem C4_brackets_tilde_unknown (t u : Tokenizer) (hsk : skipWs t = u)
    (he : u.eof = false) :
    (u.last = '[' →
      tokenize t = (⟨Token.Error (unknownMsg '[' u.line u.col), u.line, u.col⟩, u)) ∧
    (u.last = ']' →
      tokenize t = (⟨Token.Error (unknownMsg ']' u.line u.col), u.line, u.col⟩, u)) ∧
    (u.last = '~' →
      tokenize t = (⟨Token.Error (unknownMsg '~' u.line u.col), u.line, u.col⟩, u)) := by
  refine ⟨?_, ?_, ?_⟩ <;> intro hl <;>
    (show tokenizeCore (skipWs t) = _
     rw [hsk]
     have h := tokenizeCore_unknown u he (by rw [hl]; decide)
     rw [hl] at h
     exact h)

/-- C4, witness: the amended theorem applied to the concrete input `"["`. -/
theorem C4_brackets_tilde_unknown_witness :
    tokenize (Tokenizer.new srcLBracket) =
      (⟨Token.Error (unknownMsg '[' 1 1), 1, 1⟩, lbracketState) :=
  (C4_brackets_tilde_unknown (Tokenizer.new srcLBracket) lbracketState rfl rfl).1 rfl

/-- C5, counterexample: on the input `"=>"` no arrow token is produced (the
`Token` type has no arrow variant): the lexer emits `Assign` leaving the
`'>'` intact, and the following pull lexes the `'>'` as `Greater`. -/
theorem C5_counterexample :
    (tokenize (Tokenizer.new srcEqGt)).1.token = Token.Assign ∧
    (tokenize (tokenize (Tokenizer.new srcEqGt)).2).1.token = Token.Greater := by
  decide

/-- C5 (amended): when the lookahead at dispatch is `'='`, the lexer consumes
it and inspects the next character: if that is `'='` it consumes it too and
emits `Equal`; otherwise — including when it is `'>'` — it emits `Assign`
leaving the next character intact for the following dispatch.  There is no
arrow token. -/
theorem C5_eq_dispatch (t u : Tokenizer) (hsk : skipWs t = u) (he : u.eof = false)
    (hl : u.last = '=') :
    ((next u).eof = false ∧ (next u).last = '=' →
      tokenize t = (⟨Token.Equal, u.line, u.col⟩, next (next u))) ∧
    ((next u).eof = true ∨ ¬((next u).last = '=') →
      tokenize t = (⟨Token.Assign, u.line, u.col⟩, next u)) := by
  unfold tokenize
  rw [hsk, tokenizeCore_eq_dispatch u he hl]
  constructor
  · rintro ⟨h1, h2⟩
    rw [if_pos ⟨by simp [h1], h2⟩]
  · intro hc
    have hn : ¬(¬(next u).eof = true ∧ (next u).last = '=') := by
      rcases hc with h | h
      · intro hcontra; exact hcontra.1 h
      · intro hcontra; exact h hcontra.2
    rw [if_neg hn]

/-- C5, witness: the amended theorem applied to the concrete input `"=a"`:
the character after `'='` is not `'='`, so `Assign` is emitted and the `'a'`
is left for the next dispatch. -/
theorem C5_eq_dispatch_witness :
    tokenize (Tokenizer.new srcEqA) = (⟨Token.Assign, 1, 1⟩, next eqAState) :=
  (C5_eq_dispatch (Tokenizer.new srcEqA) eqAState rfl rfl rfl).2 (Or.inr (by decide))


/-- C6 (spec-modelled, see `seqView`): the derived sequence view — a lazy,
finite, single-pass sequence of `TokenAt` values built over the pull
operation `tokenize` — stops producing values as soon as `Eof` or `Error` is
reached internally and never yields a terminal token (`Eof` or `Error`) to
its consumer. -/
theorem C6_seqView_no_terminal :
    ∀ fuel t, (seqView fuel t).all (fun ta => !(isTerminal ta.token)) = true := by
  intro fuel
  induction fuel with
  | zero => intro t; rfl
  | succ n ih =>
    intro t
    simp only [seqView]
    split
    · rfl
    · rename_i hterm
      simp only [List.all_cons, Bool.and_eq_true]
      exact ⟨by simpa using hterm, ih _⟩

/-- C7, counterexample: on the empty input the first pull returns `Eof` at
position `{line := 1, col := 0}` — the column is not 1-based. -/
theorem C7_counterexample :
    (tokenize (Tokenizer.new srcEmpty)).1 = ⟨Token.Eof, 1, 0⟩ ∧
    ¬(1 ≤ (tokenize (Tokenizer.new srcEmpty)).1.col) := by
  decide

/-- C7 (amended): freshly constructed states satisfy the position invariant
`Inv`, the invariant is preserved by every pull, each token's position is
captured from the post-whitespace state before any scanning occurs, the line
component is always at least 1, and the column component is at least 1 for
every non-`Eof` token (the `Eof` token of an input on which no character was
ever consumed keeps the initial column 0). -/
theorem C7_positions :
    (∀ s : String, Inv (Tokenizer.new s)) ∧
    (∀ t : Tokenizer, Inv t →
      (tokenize t).1.line = (skipWs t).line ∧
      (tokenize t).1.col = (skipWs t).col ∧
      1 ≤ (tokenize t).1.line ∧
      ((tokenize t).1.token ≠ Token.Eof → 1 ≤ (tokenize t).1.col) ∧
      Inv (tokenize t).2) := by
  refine ⟨Inv_new, ?_⟩
  intro t h
  have hski : Inv (skipWs t) := skipWs_pres Inv Inv_next t h
  refine ⟨tokenize_tok_line t, tokenize_tok_col t, ?_, ?_, tokenize_pres Inv Inv_next t h⟩
  · rw [tokenize_tok_line]
    exact hski.1
  · intro hne
    have he : (skipWs t).eof = false := by
      by_contra hcon
      have he' : (skipWs t).eof = true := by simpa using hcon
      apply hne
      show (tokenizeCore (skipWs t)).1.token = Token.Eof
      rw [tokenizeCore_eof (skipWs t) he']
    have hws : rustIsWhitespace (skipWs t).last = false := by
      rcases skipWs_stop t with h1 | h1
      · exact absurd h1 (by simp [he])
      · exact h1
    rw [tokenize_tok_col]
    rcases hski.2 with h1 | h1
    · exact h1
    · exact absurd h1.2 (by simp [hws])

/-- C7, witness: the amended theorem applied to the concrete input `"a"`. -/
theorem C7_positions_witness :
    1 ≤ (tokenize (Tokenizer.new srcPlainA)).1.line ∧
    1 ≤ (tokenize (Tokenizer.new srcPlainA)).1.col :=
  ⟨(C7_positions.2 (Tokenizer.new srcPlainA) (C7_positions.1 srcPlainA)).2.2.1,
   (C7_positions.2 (Tokenizer.new srcPlainA) (C7_positions.1 srcPlainA)).2.2.2.1
     (by decide)⟩

/-- C8: string scanning, triggered by an opening double quote, ends in
exactly one of three ways, decided by the first non-body character of the
remaining input: a closing quote is found — it is consumed and a `Str` token
holding exactly the accumulated raw characters (no escape processing) is
returned; a raw newline is found first — an `Error` token whose message
mentions both "Unterminated string" and "newline" is returned; or the input
is exhausted first — an `Error` token whose message mentions "end of input"
and "closing" is returned. -/
theorem C8_read_str_trichotomy (t : Tokenizer) (_hq : t.last = '"') :
    (((effStream (next t)).dropWhile strBody).head? = some '"' →
      (read_str t).1 = Token.Str (String.mk ((effStream (next t)).takeWhile strBody)) ∧
      effStream (read_str t).2 = ((effStream (next t)).dropWhile strBody).tail) ∧
    (((effStream (next t)).dropWhile strBody).head? = some '\n' →
      ∃ l c, (read_str t).1 = Token.Error (newlineMsg l c) ∧
        "Unterminated string".data <:+: (newlineMsg l c).data ∧
        "newline".data <:+: (newlineMsg l c).data) ∧
    ((effStream (next t)).dropWhile strBody = [] →
      ∃ l c, (read_str t).1 = Token.Error (eofMsg l c) ∧
        "end of input".data <:+: (eofMsg l c).data ∧
        "closing".data <:+: (eofMsg l c).data) := by
  have hs := read_strF_spec (size (next t) + 1) (next t) "" (Nat.lt_succ_self _)
  refine ⟨?_, ?_, ?_⟩
  · intro hc
    have h3 := hs.2.2 hc
    constructor
    · show (read_strF (size (next t) + 1) (next t) "").1 = _
      rw [h3.1]
      have hemp : ("" : String) ++ String.mk ((effStream (next t)).takeWhile strBody) =
          String.mk ((effStream (next t)).takeWhile strBody) := by
        show String.mk ([] ++ (effStream (next t)).takeWhile strBody) = _
        rw [List.nil_append]
      rw [hemp]
    · exact h3.2
  · intro hc
    obtain ⟨l, c, hl⟩ := hs.2.1 hc
    exact ⟨l, c, hl, (newlineMsg_mentions l c).1, (newlineMsg_mentions l c).2⟩
  · intro hc
    obtain ⟨l, c, hl⟩ := hs.1 hc
    exact ⟨l, c, hl, (eofMsg_mentions l c).1, (eofMsg_mentions l c).2⟩

/-- C8, witness: the trichotomy applied at the concrete dispatch state of the
literal `"ab"`: the closing-quote case fires. -/
theorem C8_read_str_trichotomy_witness :
    (read_str strState).1 =
      Token.Str (String.mk ((effStream (next strState)).takeWhile strBody)) ∧
    effStream (read_str strState).2 =
      ((effStream (next strState)).dropWhile strBody).tail :=
  (C8_read_str_trichotomy strState rfl).1 (by decide)

/-- C9, counterexample: on the input `"@"` the pull that returns the
unknown-character `Error` does change the lexer state: the column counter
moves from 0 to 1 while reaching the offending character. -/
theorem C9_counterexample :
    (Tokenizer.new srcAt).col = 0 ∧
    (tokenize (Tokenizer.new srcAt)).2.col = 1 ∧
    (tokenize (Tokenizer.new srcAt)).1.token = Token.Error (unknownMsg '@' 1 1) := by
  decide

/-- C9 (amended): when dispatch reaches an unknown character, the pull
returns an unknown-character `Error` token and leaves the state at the
post-whitespace state `u` — the offending character is not consumed — and
`u` is a fixed point: pulling from `u` returns the identical `Error` token
at the same position and leaves the state unchanged, so every subsequent
call repeats it (the erroring call itself may still have consumed leading
whitespace, moving the counters). -/
theorem C9_unknown_fixpoint (t u : Tokenizer) (hsk : skipWs t = u) (he : u.eof = false)
    (hu : isUnknown u.last = true) :
    tokenize t = (⟨Token.Error (unknownMsg u.last u.line u.col), u.line, u.col⟩, u) ∧
    tokenize u = (⟨Token.Error (unknownMsg u.last u.line u.col), u.line, u.col⟩, u) := by
  have hws : rustIsWhitespace u.last = false := by
    rcases skipWs_stop t with h1 | h1
    · rw [hsk] at h1
      exact absurd h1 (by simp [he])
    · rwa [hsk] at h1
  constructor
  · show tokenizeCore (skipWs t) = _
    rw [hsk]
    exact tokenizeCore_unknown u he hu
  · show tokenizeCore (skipWs u) = _
    rw [skipWs_fix u (Or.inr hws)]
    exact tokenizeCore_unknown u he hu

/-- C9, witness: the amended theorem applied to the concrete input `"@"`:
pulling from the post-error state returns the identical `Error` and leaves
the state unchanged. -/
theorem C9_unknown_fixpoint_witness :
    tokenize atState = (⟨Token.Error (unknownMsg '@' 1 1), 1, 1⟩, atState) :=
  (C9_unknown_fixpoint (Tokenizer.new srcAt) atState rfl rfl (by decide)).2

/-- C10: once a pull has returned an `Eof` token, the end-of-input flag is
set and never cleared, the cursor advance is a no-op, and every subsequent
pull returns the identical `Eof` token with the same line and column,
leaving the state unchanged. -/
theorem C10_eof_absorbing (t : Tokenizer) (a : TokenAt) (t' : Tokenizer)
    (h : tokenize t = (a, t')) (ha : a.token = Token.Eof) :
    t'.eof = true ∧ next t' = t' ∧ tokenize t' = (a, t') := by
  have hu : (skipWs t).eof = true := by
    by_contra hcon
    have he : (skipWs t).eof = false := by simpa using hcon
    apply tokenizeCore_ne_eof (skipWs t) he
    show (tokenizeCore (skipWs t)).1.token = Token.Eof
    rw [show tokenizeCore (skipWs t) = (a, t') from h]
    exact ha
  have hcore : tokenizeCore (skipWs t) =
      (⟨Token.Eof, (skipWs t).line, (skipWs t).col⟩, skipWs t) :=
    tokenizeCore_eof (skipWs t) hu
  have heq : (a, t') = (⟨Token.Eof, (skipWs t).line, (skipWs t).col⟩, skipWs t) :=
    (show (a, t') = tokenizeCore (skipWs t) from h.symm).trans hcore
  rw [Prod.mk.injEq] at heq
  obtain ⟨ha2, ht2⟩ := heq
  refine ⟨?_, ?_, ?_⟩
  · rw [ht2]
    exact hu
  · rw [ht2]
    exact next_of_eof _ hu
  · rw [ht2, ha2]
    show tokenizeCore (skipWs (skipWs t)) = _
    rw [skipWs_idem t]
    exact hcore

/-- C10, witness: the theorem applied to the concrete empty input. -/
theorem C10_eof_absorbing_witness :
    emptyEofState.eof = true ∧ next emptyEofState = emptyEofState ∧
    tokenize emptyEofState = (⟨Token.Eof, 1, 0⟩, emptyEofState) :=
  C10_eof_absorbing (Tokenizer.new srcEmpty) ⟨Token.Eof, 1, 0⟩ emptyEofState rfl rfl

end Cortado
